import Mathlib

/-!
Verification of `workout_engine_testset_v5_science/score_predictions.py`.

The scorer loads two line-delimited JSON files (a dataset of expected
prescriptions and a file of predictions), joins them by the identity key
`(user_id, date, session_type)`, evaluates every main-lift entry, and
aggregates agreement and error statistics globally and per user.

Shallow embedding choices:
- JSON numbers are modelled as `ℚ`; an absent or null field is `Option.none`.
- `e.get("prescribed_weight_lb") or 0` maps falsy values (absent, null, 0)
  to `0`, which coincides with `Option.getD 0` on the typed model.
- `e.get("acceptable_range_lb") or [e_w, e_w]` falls back on absent/null
  (and on the falsy empty list, which the typed model cannot express);
  modelled as `Option (ℚ × ℚ)` with `Option.getD`.
- The Python `defaultdict` keyed by user id is modelled as a total function
  `String → Stats` (default `Stats.zero`) together with the `Finset` of keys
  that have actually been created; in the source every access to
  `per_user[u]` is an increment, so key creation and increment coincide.
- `dict` comprehension insertion (`{key(r): r for r in pr}`) is modelled as
  a left fold that overwrites, preserving last-write-wins.
- In the entry loop, the guard `if not p` fires only for `None`: a matched
  entry always carries a non-null `"lift"` key, hence is a non-empty dict.
-/

/-- One entry of a `session_prescription_for_today` sequence.
Mirrors the lenient field accesses of the source: every field may be
absent (or JSON null), hence `Option`. -/
structure LiftEntry where
  lift : Option String
  prescribed_weight_lb : Option ℚ
  acceptable_range_lb : Option (ℚ × ℚ)
  decision : Option String
deriving DecidableEq, Repr

/-- One line of either input file.  `expected` models
`r.get("expected", {}).get("session_prescription_for_today")` (none when
either level is missing) and `engine_output` models
`r.get("engine_output", {}).get("session_prescription_for_today", [])`
before its `getD []` default is applied. -/
structure Record where
  user_id : String
  date : String
  session_type : String
  expected : Option (List LiftEntry)
  engine_output : Option (List LiftEntry)
deriving DecidableEq, Repr

/-- `MAIN = {"squat","bench","deadlift","ohp"}` from the source. -/
def MAIN : List String := ["squat", "bench", "deadlift", "ohp"]

/-- `key(r) = (r["user_id"], r["date"], r["session_type"])`. -/
def key (r : Record) : String × String × String :=
  (r.user_id, r.date, r.session_type)

/-- `find_by_lift(lst, lift)`: first entry whose `lift` field equals the
target, else `None`.  An entry with no `lift` field compares unequal to
any string target. -/
def find_by_lift : List LiftEntry → String → Option LiftEntry
  | [], _ => none
  | x :: xs, lift => if x.lift = some lift then some x else find_by_lift xs lift

/-- `in_range(x, lo, hi) = (x >= lo) and (x <= hi)`. -/
def in_range (x lo hi : ℚ) : Bool :=
  decide (x ≥ lo) && decide (x ≤ hi)

/-- `pred = {key(r): r for r in pr}`: dict built by inserting in file
order, later insertions overwriting earlier ones. -/
def buildIndex (pr : List Record) : String × String × String → Option Record :=
  pr.foldl (fun m r => fun k => if k = key r then some r else m k) (fun _ => none)

/-- The counters of one aggregate: the globals
`total, agree, abs_err, decision_ok, decision_total` of the source, which
are also exactly the value shape of each `per_user` dict entry. -/
structure Stats where
  total : ℕ
  agree : ℕ
  abs_err : List ℚ
  decision_ok : ℕ
  decision_total : ℕ
deriving DecidableEq, Repr

def Stats.zero : Stats := ⟨0, 0, [], 0, 0⟩

/-- Componentwise accumulation: counters add, error samples append. -/
def Stats.add (a b : Stats) : Stats :=
  ⟨a.total + b.total, a.agree + b.agree, a.abs_err ++ b.abs_err,
   a.decision_ok + b.decision_ok, a.decision_total + b.decision_total⟩

/-- Whole accumulation state of the evaluator: the global counters, the
`per_user` defaultdict (total function with default `Stats.zero`) and the
set of user ids for which an entry of the dict has been created. -/
structure ScoreState where
  global : Stats
  per_user : String → Stats
  users : Finset String

def initState : ScoreState := ⟨Stats.zero, fun _ => Stats.zero, ∅⟩

/-- Add the same increment `d` to the global counters and to user `u`'s
counters, recording that `u` now has a `per_user` entry.  In the source
this is the block of paired `x += ...` / `per_user[u][...] += ...`
statements. -/
def bump (st : ScoreState) (u : String) (d : Stats) : ScoreState :=
  ⟨st.global.add d,
   Function.update st.per_user u ((st.per_user u).add d),
   insert u st.users⟩

/-- The increments one evaluated entry produces (source lines 55-78):
total 1, agreement per `in_range`, one absolute-error sample, and the
decision counters when both sides carry a non-null decision. -/
def entryDelta (e p : LiftEntry) : Stats :=
  let e_w : ℚ := e.prescribed_weight_lb.getD 0
  let p_w : ℚ := p.prescribed_weight_lb.getD 0
  let lohi : ℚ × ℚ := e.acceptable_range_lb.getD (e_w, e_w)
  let dec : ℕ × ℕ :=
    match e.decision, p.decision with
    | some ed, some pd => (1, if ed = pd then 1 else 0)
    | _, _ => (0, 0)
  { total := 1
    agree := if in_range p_w lohi.1 lohi.2 then 1 else 0
    abs_err := [|e_w - p_w|]
    decision_ok := dec.2
    decision_total := dec.1 }

/-- Evaluate one expected lift entry `e` against the prediction list:
skip when the lift is missing or not a main lift, or when no predicted
entry matches; otherwise apply the entry's increments. -/
def evalEntry (u : String) (pred_list : List LiftEntry) (st : ScoreState)
    (e : LiftEntry) : ScoreState :=
  match e.lift with
  | none => st
  | some lift =>
    if lift ∈ MAIN then
      match find_by_lift pred_list lift with
      | none => st
      | some p => bump st u (entryDelta e p)
    else st

/-- Evaluate one dataset record: skip when the expected prescription list
is absent or empty, or when the identity key has no match in the
predictions index; otherwise fold over the expected entries. -/
def evalRecord (idx : String × String × String → Option Record)
    (st : ScoreState) (r : Record) : ScoreState :=
  match r.expected with
  | none => st
  | some exp_list =>
    if exp_list = [] then st
    else
      match idx (key r) with
      | none => st
      | some prRec =>
        exp_list.foldl (evalEntry r.user_id (prRec.engine_output.getD [])) st

/-- The whole evaluation pass of `main`: index the predictions, then fold
over the dataset records. -/
def evaluate (ds pr : List Record) : ScoreState :=
  ds.foldl (evalRecord (buildIndex pr)) initState

/-- A reported numeric value: either a rational or the `float("nan")`
sentinel the source prints when the error-sample list is empty. -/
inductive RVal where
  | num : ℚ → RVal
  | nan : RVal
deriving DecidableEq, Repr

/-- Division as Python performs it: `none` models the `ZeroDivisionError`
that would be raised on a zero denominator. -/
def pyDiv (a b : ℚ) : Option ℚ :=
  if b = 0 then none else some (a / b)

/-- `num/den if den else 0`: the guarded rate expression of the report. -/
def mkRate (num den : ℕ) : Option ℚ :=
  if den ≠ 0 then pyDiv (num : ℚ) (den : ℚ) else some 0

/-- `sum(l)/len(l) if l else float("nan")`: the guarded mean absolute
error of the report. -/
def mkMae (l : List ℚ) : Option RVal :=
  if l = [] then some RVal.nan
  else (pyDiv l.sum (l.length : ℚ)).map RVal.num

/-- One printed per-user line:
`{u}: agree {agree_rate}, MAE {mae} lb, decisionAcc {dec_rate}, n={n}`. -/
structure UserLine where
  user : String
  agree_rate : ℚ
  mae : RVal
  dec_rate : ℚ
  n : ℕ
deriving DecidableEq, Repr

/-- Compute one per-user line with the source's guards. -/
def mkUserLine (u : String) (s : Stats) : Option UserLine := do
  let m ← mkMae s.abs_err
  let ar ← mkRate s.agree s.total
  let dr ← mkRate s.decision_ok s.decision_total
  pure ⟨u, ar, m, dr, s.total⟩

/-- `sorted(per_user.items())`: the user ids present in the per-user
dict, in ascending order. -/
def sortedUsers (st : ScoreState) : List String :=
  st.users.sort (fun a b => a ≤ b)

/-- The whole printed report, structurally. -/
structure Report where
  agree : ℕ
  total : ℕ
  agree_rate : ℚ
  mae : RVal
  decision_ok : ℕ
  decision_total : ℕ
  dec_rate : ℚ
  lines : List UserLine
deriving DecidableEq, Repr

/-- Compute the per-user lines in the given user order. -/
def mkUserLines (st : ScoreState) : List String → Option (List UserLine)
  | [] => some []
  | u :: us => do
    let ln ← mkUserLine u (st.per_user u)
    let rest ← mkUserLines st us
    pure (ln :: rest)

/-- Compute the report of source lines 80-89; `none` anywhere would mean
an unguarded division by zero. -/
def mkReport (st : ScoreState) : Option Report := do
  let m ← mkMae st.global.abs_err
  let ar ← mkRate st.global.agree st.global.total
  let dr ← mkRate st.global.decision_ok st.global.decision_total
  let ls ← mkUserLines st (sortedUsers st)
  pure ⟨st.global.agree, st.global.total, ar, m,
        st.global.decision_ok, st.global.decision_total, dr, ls⟩

/-- The usage string printed on a wrong argument count. -/
def usageMsg : String :=
  "Usage: score_predictions.py dataset.jsonl predictions.jsonl"

/-- Observable outcome of one invocation: exit code, lines printed before
the report, the paths actually read, and the report (none when no report
was produced). -/
structure CliOutcome where
  exitCode : ℕ
  output : List String
  filesRead : List String
  report : Option Report
deriving DecidableEq, Repr

/-- `main()` up to I/O: `args` are the positional arguments
(`sys.argv` minus the script name), `files` maps a path to its parsed
line-delimited JSON content.  `len(sys.argv) != 3` is exactly
`args.length ≠ 2`. -/
def runCli (args : List String) (files : String → List Record) : CliOutcome :=
  if args.length ≠ 2 then
    ⟨2, [usageMsg], [], none⟩
  else
    let dsPath := args.headD ""
    let prPath := (args.drop 1).headD ""
    let ds := files dsPath
    let pr := files prPath
    ⟨0, [], [dsPath, prPath], mkReport (evaluate ds pr)⟩

example :
    find_by_lift [⟨some "squat", some 200, none, none⟩,
      ⟨some "squat", some 300, none, none⟩] "squat"
      = some ⟨some "squat", some 200, none, none⟩ := by decide

example : in_range 190 190 210 = true := by decide

example : in_range 211 190 210 = false := by decide

lemma buildIndex_append (pr : List Record) (r : Record)
    (k : String × String × String) :
    buildIndex (pr ++ [r]) k = if k = key r then some r else buildIndex pr k := by
  simp [buildIndex, List.foldl_append]

/-- C6: `find_by_lift` returns the first entry in sequence order whose
`lift` field equals the target, and `none` when no entry matches; with
duplicate entries for the same lift only the first is ever returned. -/
theorem find_by_lift_first_match (lst : List LiftEntry) (t : String) :
    (find_by_lift lst t = none ↔ ∀ x ∈ lst, x.lift ≠ some t) ∧
    (∀ x, find_by_lift lst t = some x →
      x.lift = some t ∧
        ∃ l1 l2, lst = l1 ++ x :: l2 ∧ ∀ y ∈ l1, y.lift ≠ some t) := by
  induction lst with
  | nil => simp [find_by_lift]
  | cons a l ih =>
    by_cases ha : a.lift = some t
    · refine ⟨by simp [find_by_lift, ha], ?_⟩
      intro x hx
      rw [find_by_lift, if_pos ha, Option.some_inj] at hx
      subst hx
      exact ⟨ha, [], l, rfl, by simp⟩
    · refine ⟨?_, ?_⟩
      · rw [find_by_lift, if_neg ha, ih.1]
        simp [ha]
      · intro x hx
        rw [find_by_lift, if_neg ha] at hx
        obtain ⟨hlift, l1, l2, heq, hnone⟩ := ih.2 x hx
        exact ⟨hlift, a :: l1, l2, by rw [heq]; rfl,
          by rw [List.forall_mem_cons]; exact ⟨ha, hnone⟩⟩

/-- C5: the predictions index maps each identity key to the last record
in file order bearing that key (last-write-wins on duplicates), and to
`none` exactly when no record bears it. -/
theorem index_last_write_wins (pr : List Record)
    (k : String × String × String) :
    (buildIndex pr k = none ↔ ∀ r ∈ pr, key r ≠ k) ∧
    (∀ r, buildIndex pr k = some r →
      key r = k ∧ ∃ l1 l2, pr = l1 ++ r :: l2 ∧ ∀ x ∈ l2, key x ≠ k) := by
  induction pr using List.reverseRecOn with
  | nil => simp [buildIndex]
  | append_singleton l r ih =>
    by_cases hk : k = key r
    · refine ⟨iff_of_false ?_ ?_, ?_⟩
      · rw [buildIndex_append, if_pos hk]
        simp
      · intro h
        exact (h r (by simp)) hk.symm
      intro x hx
      rw [buildIndex_append, if_pos hk, Option.some_inj] at hx
      subst hx
      exact ⟨hk.symm, l, [], rfl, by simp⟩
    · refine ⟨?_, ?_⟩
      · rw [buildIndex_append, if_neg hk, ih.1]
        constructor
        · intro h x hx
          rcases List.mem_append.mp hx with hx | hx
          · exact h x hx
          · rw [List.mem_singleton.mp hx]
            exact fun hc => hk hc.symm
        · intro h x hx
          exact h x (List.mem_append.mpr (Or.inl hx))
      · intro x hx
        rw [buildIndex_append, if_neg hk] at hx
        obtain ⟨hkey, l1, l2, heq, hl2⟩ := ih.2 x hx
        refine ⟨hkey, l1, l2 ++ [r], by rw [heq]; simp, ?_⟩
        intro y hy
        rcases List.mem_append.mp hy with hy | hy
        · exact hl2 y hy
        · rw [List.mem_singleton.mp hy]
          exact fun h => hk h.symm

/-- C9: with a number of positional arguments other than two, the program
prints the usage message, exits with code 2, reads no file and produces
no report. -/
theorem usage_on_bad_argc (args : List String)
    (files : String → List Record) (h : args.length ≠ 2) :
    runCli args files = ⟨2, [usageMsg], [], none⟩ := by
  simp [runCli, h]

theorem usage_on_bad_argc_witness :
    (["just-one-arg"] : List String).length ≠ 2 ∧
      runCli ["just-one-arg"] (fun _ => []) = ⟨2, [usageMsg], [], none⟩ :=
  ⟨by decide, usage_on_bad_argc ["just-one-arg"] (fun _ => []) (by decide)⟩

/-- C2: a dataset record whose identity key has no match in the
predictions index, or whose expected prescription list is absent or
empty, leaves the whole accumulation state unchanged: it contributes
zero to every counter and error-sample sequence, global and per-user. -/
theorem skipped_record_contributes_nothing (pr : List Record)
    (st : ScoreState) (r : Record)
    (h : buildIndex pr (key r) = none ∨ r.expected = none ∨
      r.expected = some []) :
    evalRecord (buildIndex pr) st r = st := by
  rcases h with h | h | h
  · unfold evalRecord
    cases hexp : r.expected with
    | none => rfl
    | some el =>
      by_cases hel : el = []
      · simp [hel]
      · simp [hel, h]
  · simp [evalRecord, h]
  · simp [evalRecord, h]

/-- The value the guarded rate expression produces. -/
def rateVal (num den : ℕ) : ℚ :=
  if den = 0 then 0 else (num : ℚ) / (den : ℚ)

/-- The value the guarded mean-absolute-error expression produces. -/
def maeVal (l : List ℚ) : RVal :=
  if l = [] then RVal.nan else RVal.num (l.sum / (l.length : ℚ))

/-- The per-user line printed for user `u` with counters `s`. -/
def userLineVal (u : String) (s : Stats) : UserLine :=
  ⟨u, rateVal s.agree s.total, maeVal s.abs_err,
   rateVal s.decision_ok s.decision_total, s.total⟩

lemma mkRate_eq_some (num den : ℕ) : mkRate num den = some (rateVal num den) := by
  unfold mkRate rateVal pyDiv
  by_cases h : den = 0
  · simp [h]
  · simp [h, Nat.cast_eq_zero]

lemma mkMae_eq_some (l : List ℚ) : mkMae l = some (maeVal l) := by
  unfold mkMae maeVal pyDiv
  by_cases h : l = []
  · simp [h]
  · have hl : (l.length : ℚ) ≠ 0 :=
      Nat.cast_ne_zero.mpr (fun hc => h (List.length_eq_zero.mp hc))
    simp [h, hl]

lemma mkUserLine_eq_some (u : String) (s : Stats) :
    mkUserLine u s = some (userLineVal u s) := by
  simp [mkUserLine, mkRate_eq_some, mkMae_eq_some, userLineVal]

lemma mkUserLines_eq_some (st : ScoreState) (l : List String) :
    mkUserLines st l = some (l.map (fun u => userLineVal u (st.per_user u))) := by
  induction l with
  | nil => rfl
  | cons a t ih => simp [mkUserLines, mkUserLine_eq_some, ih]

lemma mkReport_eq_some (st : ScoreState) :
    mkReport st = some ⟨st.global.agree, st.global.total,
      rateVal st.global.agree st.global.total, maeVal st.global.abs_err,
      st.global.decision_ok, st.global.decision_total,
      rateVal st.global.decision_ok st.global.decision_total,
      (sortedUsers st).map (fun u => userLineVal u (st.per_user u))⟩ := by
  simp [mkReport, mkRate_eq_some, mkMae_eq_some, mkUserLines_eq_some]

/-- C7: the reporter never divides by zero: the report always exists,
with agreement rate 0 when the evaluated total is 0, decision accuracy 0
when no decision comparison occurred, the not-a-number sentinel when the
error-sample list is empty, and the same guards on every per-user line. -/
theorem reporter_division_guards (st : ScoreState) :
    ∃ rep, mkReport st = some rep ∧
      (st.global.total = 0 → rep.agree_rate = 0) ∧
      (st.global.decision_total = 0 → rep.dec_rate = 0) ∧
      (st.global.abs_err = [] → rep.mae = RVal.nan) ∧
      (∀ ln ∈ rep.lines,
        ((st.per_user ln.user).total = 0 → ln.agree_rate = 0) ∧
        ((st.per_user ln.user).decision_total = 0 → ln.dec_rate = 0) ∧
        ((st.per_user ln.user).abs_err = [] → ln.mae = RVal.nan)) := by
  refine ⟨_, mkReport_eq_some st, ?_, ?_, ?_, ?_⟩
  · intro h
    simp [rateVal, h]
  · intro h
    simp [rateVal, h]
  · intro h
    simp [maeVal, h]
  · intro ln hln
    simp only [List.mem_map] at hln
    obtain ⟨u, hu, hlnu⟩ := hln
    subst hlnu
    refine ⟨?_, ?_, ?_⟩ <;>
      · simp only [userLineVal]
        intro h
        simp [rateVal, maeVal, h]

lemma evalEntry_eval (u : String) (pl : List LiftEntry) (st : ScoreState)
    (e : LiftEntry) (l : String) (p : LiftEntry)
    (hl : e.lift = some l) (hm : l ∈ MAIN) (hp : find_by_lift pl l = some p) :
    evalEntry u pl st e = bump st u (entryDelta e p) := by
  unfold evalEntry
  rw [hl]
  simp [hm, hp]

lemma if_one_zero_eq_one (P : Prop) [Decidable P] :
    ((if P then 1 else 0 : ℕ) = 1 ↔ P) := by
  by_cases h : P <;> simp [h]

/-- The reconciliation invariant of the accumulation state: users
without a created `per_user` entry hold zero counters, the per-user
counters sum to the global counters, the per-user error samples form
exactly the global error-sample multiset, and every created user has at
least one evaluated entry. -/
def aggInv (st : ScoreState) : Prop :=
  (∀ u, u ∉ st.users → st.per_user u = Stats.zero) ∧
  (∑ v in st.users, (st.per_user v).total) = st.global.total ∧
  (∑ v in st.users, (st.per_user v).agree) = st.global.agree ∧
  (∑ v in st.users, (st.per_user v).decision_ok) = st.global.decision_ok ∧
  (∑ v in st.users, (st.per_user v).decision_total)
    = st.global.decision_total ∧
  (∑ v in st.users, ((st.per_user v).abs_err : Multiset ℚ))
    = (st.global.abs_err : Multiset ℚ) ∧
  (∀ u ∈ st.users, 1 ≤ (st.per_user u).total)

lemma sum_update_bump {M : Type} [AddCommMonoid M] (f : String → M)
    (s : Finset String) (u : String) (d : M) (h0 : u ∉ s → f u = 0) :
    (∑ v in insert u s, Function.update f u (f u + d) v)
      = (∑ v in s, f v) + d := by
  by_cases hu : u ∈ s
  · rw [Finset.insert_eq_self.mpr hu, Finset.sum_update_of_mem hu,
      Finset.sdiff_singleton_eq_erase, ← Finset.add_sum_erase s f hu,
      add_right_comm]
  · have hcong : ∀ v ∈ s, Function.update f u (f u + d) v = f v := by
      intro v hv
      exact Function.update_noteq (ne_of_mem_of_not_mem hv hu) _ _
    rw [Finset.sum_insert hu, Function.update_same,
      Finset.sum_congr rfl hcong, h0 hu, zero_add]
    exact add_comm _ _

lemma aggInv_bump (st : ScoreState) (u : String) (d : Stats)
    (h : aggInv st) (hd : 1 ≤ d.total) : aggInv (bump st u d) := by
  obtain ⟨hz, ht, ha, hok, hdt, herr, hpos⟩ := h
  refine ⟨?_, ?_, ?_, ?_, ?_, ?_, ?_⟩
  · intro v hv
    have hv2 : ¬(v = u ∨ v ∈ st.users) := fun hc =>
      hv (Finset.mem_insert.mpr hc)
    rw [not_or] at hv2
    show Function.update st.per_user u ((st.per_user u).add d) v = Stats.zero
    rw [Function.update_noteq hv2.1]
    exact hz v hv2.2
  · show (∑ v in insert u st.users,
        (Function.update st.per_user u ((st.per_user u).add d) v).total)
      = st.global.total + d.total
    have hproj : ∀ v,
        (Function.update st.per_user u ((st.per_user u).add d) v).total
        = Function.update (fun w => (st.per_user w).total) u
            ((fun w => (st.per_user w).total) u + d.total) v := fun v =>
      Function.apply_update (fun _ s => s.total) st.per_user u _ v
    rw [Finset.sum_congr rfl (fun v _ => hproj v),
      sum_update_bump (fun w => (st.per_user w).total) st.users u d.total
        (fun hu => by show (st.per_user u).total = 0; rw [hz u hu]; rfl), ht]
  · show (∑ v in insert u st.users,
        (Function.update st.per_user u ((st.per_user u).add d) v).agree)
      = st.global.agree + d.agree
    have hproj : ∀ v,
        (Function.update st.per_user u ((st.per_user u).add d) v).agree
        = Function.update (fun w => (st.per_user w).agree) u
            ((fun w => (st.per_user w).agree) u + d.agree) v := fun v =>
      Function.apply_update (fun _ s => s.agree) st.per_user u _ v
    rw [Finset.sum_congr rfl (fun v _ => hproj v),
      sum_update_bump (fun w => (st.per_user w).agree) st.users u d.agree
        (fun hu => by show (st.per_user u).agree = 0; rw [hz u hu]; rfl), ha]
  · show (∑ v in insert u st.users,
        (Function.update st.per_user u ((st.per_user u).add d) v).decision_ok)
      = st.global.decision_ok + d.decision_ok
    have hproj : ∀ v,
        (Function.update st.per_user u ((st.per_user u).add d) v).decision_ok
        = Function.update (fun w => (st.per_user w).decision_ok) u
            ((fun w => (st.per_user w).decision_ok) u + d.decision_ok) v :=
      fun v =>
        Function.apply_update (fun _ s => s.decision_ok) st.per_user u _ v
    rw [Finset.sum_congr rfl (fun v _ => hproj v),
      sum_update_bump (fun w => (st.per_user w).decision_ok) st.users u
        d.decision_ok
        (fun hu => by show (st.per_user u).decision_ok = 0; rw [hz u hu]; rfl),
      hok]
  · show (∑ v in insert u st.users,
        (Function.update st.per_user u
          ((st.per_user u).add d) v).decision_total)
      = st.global.decision_total + d.decision_total
    have hproj : ∀ v,
        (Function.update st.per_user u
          ((st.per_user u).add d) v).decision_total
        = Function.update (fun w => (st.per_user w).decision_total) u
            ((fun w => (st.per_user w).decision_total) u + d.decision_total)
            v := fun v =>
      Function.apply_update (fun _ s => s.decision_total) st.per_user u _ v
    rw [Finset.sum_congr rfl (fun v _ => hproj v),
      sum_update_bump (fun w => (st.per_user w).decision_total) st.users u
        d.decision_total
        (fun hu => by show (st.per_user u).decision_total = 0; rw [hz u hu]; rfl),
      hdt]
  · show (∑ v in insert u st.users,
        ((Function.update st.per_user u
          ((st.per_user u).add d) v).abs_err : Multiset ℚ))
      = ((st.global.abs_err ++ d.abs_err : List ℚ) : Multiset ℚ)
    have hproj : ∀ v,
        ((Function.update st.per_user u
          ((st.per_user u).add d) v).abs_err : Multiset ℚ)
        = Function.update
            (fun w => ((st.per_user w).abs_err : Multiset ℚ)) u
            ((fun w => ((st.per_user w).abs_err : Multiset ℚ)) u
              + (d.abs_err : Multiset ℚ)) v := fun v =>
      Function.apply_update (fun _ s => ((Stats.abs_err s : List ℚ) : Multiset ℚ))
        st.per_user u _ v
    rw [Finset.sum_congr rfl (fun v _ => hproj v),
      sum_update_bump (fun w => ((st.per_user w).abs_err : Multiset ℚ))
        st.users u (d.abs_err : Multiset ℚ)
        (fun hu => by
          show ((st.per_user u).abs_err : Multiset ℚ) = 0
          rw [hz u hu]
          rfl),
      herr]
    exact (Multiset.coe_add _ _).symm
  · intro v hv
    by_cases hvu : v = u
    · subst hvu
      show 1 ≤ (Function.update st.per_user v ((st.per_user v).add d) v).total
      rw [Function.update_same]
      exact le_trans hd (Nat.le_add_left _ _)
    · have hvs : v ∈ st.users :=
        ((Finset.mem_insert.mp hv).resolve_left hvu)
      show 1 ≤ (Function.update st.per_user u ((st.per_user u).add d) v).total
      rw [Function.update_noteq hvu]
      exact hpos v hvs

lemma aggInv_evalEntry (u : String) (pl : List LiftEntry) (st : ScoreState)
    (e : LiftEntry) (h : aggInv st) : aggInv (evalEntry u pl st e) := by
  unfold evalEntry
  split
  · exact h
  · split
    · split
      · exact h
      · exact aggInv_bump st u _ h (by simp [entryDelta])
    · exact h

lemma aggInv_foldl (u : String) (pl : List LiftEntry) :
    ∀ (es : List LiftEntry) (st : ScoreState), aggInv st →
      aggInv (es.foldl (evalEntry u pl) st)
  | [], _, h => h
  | e :: es, st, h => aggInv_foldl u pl es _ (aggInv_evalEntry u pl st e h)

lemma aggInv_evalRecord (idx : String × String × String → Option Record)
    (st : ScoreState) (r : Record) (h : aggInv st) :
    aggInv (evalRecord idx st r) := by
  unfold evalRecord
  split
  · exact h
  · split
    · exact h
    · split
      · exact h
      · exact aggInv_foldl _ _ _ st h

lemma aggInv_initState : aggInv initState := by
  refine ⟨fun u _ => rfl, ?_, ?_, ?_, ?_, ?_, ?_⟩ <;>
    simp [initState, Stats.zero]

lemma aggInv_foldRecords (idx : String × String × String → Option Record) :
    ∀ (ds : List Record) (st : ScoreState), aggInv st →
      aggInv (ds.foldl (evalRecord idx) st)
  | [], _, h => h
  | r :: ds, st, h => aggInv_foldRecords idx ds _ (aggInv_evalRecord idx st r h)

lemma aggInv_evaluate (ds pr : List Record) : aggInv (evaluate ds pr) :=
  aggInv_foldRecords (buildIndex pr) ds initState aggInv_initState

/-- The expected lift entry from the spec's example scenario. -/
def exExpected : LiftEntry :=
  ⟨some "squat", some 200, some (190, 210), some "increase"⟩

/-- The predicted lift entry from the spec's example scenario. -/
def exPredicted : LiftEntry :=
  ⟨some "squat", some 205, none, some "increase"⟩

/-- C1: for an evaluated main-lift entry, the agreement counter
increments exactly when the predicted weight lies within the acceptable
range, both ends included; the range is the two bounds of
`acceptable_range_lb` when provided and otherwise the degenerate point
range at the expected weight, where agreement is exact equality. -/
theorem agreement_iff_within_range (u : String) (pl : List LiftEntry)
    (st : ScoreState) (e : LiftEntry) (l : String) (p : LiftEntry)
    (hl : e.lift = some l) (hm : l ∈ MAIN) (hp : find_by_lift pl l = some p) :
    ((evalEntry u pl st e).global.agree = st.global.agree + 1 ↔
      ((e.acceptable_range_lb.getD
          (e.prescribed_weight_lb.getD 0, e.prescribed_weight_lb.getD 0)).1 ≤
            p.prescribed_weight_lb.getD 0 ∧
        p.prescribed_weight_lb.getD 0 ≤
          (e.acceptable_range_lb.getD
            (e.prescribed_weight_lb.getD 0,
             e.prescribed_weight_lb.getD 0)).2)) ∧
    (e.acceptable_range_lb = none →
      ((evalEntry u pl st e).global.agree = st.global.agree + 1 ↔
        p.prescribed_weight_lb.getD 0 = e.prescribed_weight_lb.getD 0)) := by
  rw [evalEntry_eval u pl st e l p hl hm hp]
  have hb : (bump st u (entryDelta e p)).global.agree
      = st.global.agree + (entryDelta e p).agree := rfl
  constructor
  · rw [hb, add_right_inj]
    simp only [entryDelta, in_range, Bool.and_eq_true, decide_eq_true_eq,
      ge_iff_le]
    exact if_one_zero_eq_one _
  · intro hnone
    rw [hb, add_right_inj]
    simp only [entryDelta, hnone, Option.getD_none, in_range,
      Bool.and_eq_true, decide_eq_true_eq, ge_iff_le]
    rw [if_one_zero_eq_one]
    exact ⟨fun h => le_antisymm h.2 h.1, fun h => by simp [h]⟩

theorem agreement_iff_within_range_witness :
    exExpected.lift = some "squat" ∧ "squat" ∈ MAIN ∧
      find_by_lift [exPredicted] "squat" = some exPredicted ∧
      (((evalEntry "u1" [exPredicted] initState exExpected).global.agree
          = initState.global.agree + 1 ↔
        ((exExpected.acceptable_range_lb.getD
            (exExpected.prescribed_weight_lb.getD 0,
             exExpected.prescribed_weight_lb.getD 0)).1 ≤
              exPredicted.prescribed_weight_lb.getD 0 ∧
          exPredicted.prescribed_weight_lb.getD 0 ≤
            (exExpected.acceptable_range_lb.getD
              (exExpected.prescribed_weight_lb.getD 0,
               exExpected.prescribed_weight_lb.getD 0)).2)) ∧
       (exExpected.acceptable_range_lb = none →
         ((evalEntry "u1" [exPredicted] initState exExpected).global.agree
             = initState.global.agree + 1 ↔
           exPredicted.prescribed_weight_lb.getD 0
             = exExpected.prescribed_weight_lb.getD 0))) :=
  ⟨rfl, by decide, rfl,
   agreement_iff_within_range "u1" [exPredicted] initState exExpected "squat"
     exPredicted rfl (by decide) rfl⟩

/-- C3 counterexample: the source's main-lift set holds the strings
"bench" and "ohp", not "bench press" and "overhead press".  An entry
whose lift string is "bench" — not one of the four names the claim
lists — is evaluated and increments the total counter, while an entry
whose lift string is "bench press" — one of the four listed names — is
silently ignored. -/
theorem main_lift_strings_counterexample :
    ("bench" ∉ (["squat", "bench press", "deadlift", "overhead press"] :
        List String)) ∧
    (evalEntry "u1" [⟨some "bench", none, none, none⟩] initState
        ⟨some "bench", none, none, none⟩).global.total
      = initState.global.total + 1 ∧
    ("bench press" ∈ (["squat", "bench press", "deadlift", "overhead press"] :
        List String)) ∧
    evalEntry "u1" [⟨some "bench press", none, none, none⟩] initState
        ⟨some "bench press", none, none, none⟩
      = initState :=
  ⟨by decide, by decide, by decide, rfl⟩

/-- C3 amended: the set of lift strings scored is exactly "squat",
"bench", "deadlift" and "ohp" (the source's spellings of squat, bench
press, deadlift and overhead press): an entry whose lift string is
absent or any other string is silently ignored, contributing to no
counter, and an entry whose lift string is one of the four is evaluated
whenever a predicted entry matches. -/
theorem main_lift_strings_amended (u : String) (pl : List LiftEntry)
    (st : ScoreState) (e : LiftEntry) :
    MAIN = ["squat", "bench", "deadlift", "ohp"] ∧
    (e.lift = none → evalEntry u pl st e = st) ∧
    (∀ l, e.lift = some l → l ∉ MAIN → evalEntry u pl st e = st) ∧
    (∀ l p, e.lift = some l → l ∈ MAIN → find_by_lift pl l = some p →
      (evalEntry u pl st e).global.total = st.global.total + 1) := by
  refine ⟨rfl, ?_, ?_, ?_⟩
  · intro h
    simp [evalEntry, h]
  · intro l hl hm
    simp [evalEntry, hl, hm]
  · intro l p hl hm hp
    rw [evalEntry_eval u pl st e l p hl hm hp]
    simp [bump, Stats.add, entryDelta]

/-- C4: for an evaluated entry, the decision-comparison counters (global
and per-user) increment exactly when both sides carry a non-null
decision; the match counters increment exactly when additionally the two
decisions are equal; with a decision missing on either side, the entry
still increments the weight-agreement total but leaves every decision
counter unchanged. -/
theorem decision_counters_iff (u : String) (pl : List LiftEntry)
    (st : ScoreState) (e : LiftEntry) (l : String) (p : LiftEntry)
    (hl : e.lift = some l) (hm : l ∈ MAIN) (hp : find_by_lift pl l = some p) :
    ((evalEntry u pl st e).global.total = st.global.total + 1 ∧
      ((evalEntry u pl st e).per_user u).total = (st.per_user u).total + 1) ∧
    ((evalEntry u pl st e).global.decision_total = st.global.decision_total + 1 ↔
      e.decision ≠ none ∧ p.decision ≠ none) ∧
    (((evalEntry u pl st e).per_user u).decision_total
        = (st.per_user u).decision_total + 1 ↔
      e.decision ≠ none ∧ p.decision ≠ none) ∧
    (∀ ed pd, e.decision = some ed → p.decision = some pd →
      (((evalEntry u pl st e).global.decision_ok
          = st.global.decision_ok + 1 ↔ ed = pd) ∧
        (((evalEntry u pl st e).per_user u).decision_ok
          = (st.per_user u).decision_ok + 1 ↔ ed = pd))) ∧
    ((e.decision = none ∨ p.decision = none) →
      ((evalEntry u pl st e).global.decision_total = st.global.decision_total ∧
       (evalEntry u pl st e).global.decision_ok = st.global.decision_ok ∧
       ((evalEntry u pl st e).per_user u).decision_total
          = (st.per_user u).decision_total ∧
       ((evalEntry u pl st e).per_user u).decision_ok
          = (st.per_user u).decision_ok)) := by
  rw [evalEntry_eval u pl st e l p hl hm hp]
  have hu : (bump st u (entryDelta e p)).per_user u
      = (st.per_user u).add (entryDelta e p) :=
    Function.update_same u _ _
  rcases hed : e.decision with _ | ed <;> rcases hpd : p.decision with _ | pd <;>
    refine ⟨⟨?_, ?_⟩, ?_, ?_, ?_, ?_⟩ <;>
      simp only [hu, bump, Stats.add, entryDelta, hed, hpd] <;> simp

theorem decision_counters_iff_witness :
    exExpected.lift = some "squat" ∧ "squat" ∈ MAIN ∧
      find_by_lift [exPredicted] "squat" = some exPredicted ∧
      ((evalEntry "u1" [exPredicted] initState exExpected).global.decision_total
          = initState.global.decision_total + 1 ↔
        exExpected.decision ≠ none ∧ exPredicted.decision ≠ none) :=
  ⟨rfl, by decide, rfl,
   (decision_counters_iff "u1" [exPredicted] initState exExpected "squat"
      exPredicted rfl (by decide) rfl).2.1⟩

theorem skipped_record_contributes_nothing_witness :
    (buildIndex [] (key ⟨"u1", "2024-01-01", "A", none, none⟩) = none ∨
      Record.expected ⟨"u1", "2024-01-01", "A", none, none⟩ = none ∨
      Record.expected ⟨"u1", "2024-01-01", "A", none, none⟩ = some []) ∧
      evalRecord (buildIndex []) initState ⟨"u1", "2024-01-01", "A", none, none⟩
        = initState :=
  ⟨Or.inr (Or.inl rfl),
   skipped_record_contributes_nothing [] initState _ (Or.inr (Or.inl rfl))⟩

/-- The dataset record of the spec's example scenario. -/
def exDatasetRec : Record :=
  ⟨"u1", "2024-01-01", "A", some [exExpected], none⟩

/-- The prediction record of the spec's example scenario. -/
def exPredRec : Record :=
  ⟨"u1", "2024-01-01", "A", none, some [exPredicted]⟩

/-- C8: after evaluating any dataset, the per-user aggregates sum to the
global aggregates: totals, agreement counts, decision-match counts,
decision-comparison counts, and the multiset of absolute-error samples. -/
theorem per_user_sums_to_global (ds pr : List Record) :
    (∑ v in (evaluate ds pr).users, ((evaluate ds pr).per_user v).total)
      = (evaluate ds pr).global.total ∧
    (∑ v in (evaluate ds pr).users, ((evaluate ds pr).per_user v).agree)
      = (evaluate ds pr).global.agree ∧
    (∑ v in (evaluate ds pr).users, ((evaluate ds pr).per_user v).decision_ok)
      = (evaluate ds pr).global.decision_ok ∧
    (∑ v in (evaluate ds pr).users,
        ((evaluate ds pr).per_user v).decision_total)
      = (evaluate ds pr).global.decision_total ∧
    (∑ v in (evaluate ds pr).users,
        (((evaluate ds pr).per_user v).abs_err : Multiset ℚ))
      = ((evaluate ds pr).global.abs_err : Multiset ℚ) :=
  ⟨(aggInv_evaluate ds pr).2.1, (aggInv_evaluate ds pr).2.2.1,
   (aggInv_evaluate ds pr).2.2.2.1, (aggInv_evaluate ds pr).2.2.2.2.1,
   (aggInv_evaluate ds pr).2.2.2.2.2.1⟩

/-- C10: every user id with a created per-user entry has evaluated at
least one entry, so its per-user line shows n >= 1 and its agreement
rate takes the division branch of the guard, never the zero fallback. -/
theorem per_user_total_positive (ds pr : List Record) :
    ∀ u ∈ (evaluate ds pr).users,
      1 ≤ ((evaluate ds pr).per_user u).total ∧
      mkRate ((evaluate ds pr).per_user u).agree
          ((evaluate ds pr).per_user u).total
        = pyDiv (((evaluate ds pr).per_user u).agree : ℚ)
            (((evaluate ds pr).per_user u).total : ℚ) := by
  intro u hu
  have h1 := (aggInv_evaluate ds pr).2.2.2.2.2.2 u hu
  have h2 : ((evaluate ds pr).per_user u).total ≠ 0 := by omega
  exact ⟨h1, by simp [mkRate, h2]⟩

theorem per_user_total_positive_witness :
    "u1" ∈ (evaluate [exDatasetRec] [exPredRec]).users ∧
      (1 ≤ ((evaluate [exDatasetRec] [exPredRec]).per_user "u1").total ∧
        mkRate ((evaluate [exDatasetRec] [exPredRec]).per_user "u1").agree
            ((evaluate [exDatasetRec] [exPredRec]).per_user "u1").total
          = pyDiv
              (((evaluate [exDatasetRec] [exPredRec]).per_user "u1").agree : ℚ)
              (((evaluate [exDatasetRec] [exPredRec]).per_user "u1").total : ℚ)) :=
  ⟨by decide,
   per_user_total_positive [exDatasetRec] [exPredRec] "u1" (by decide)⟩
